import Mathlib

/-!
Verification of the diagnostic-and-recommendation core of `TS-app.py`.

The source is a single Streamlit script.  Its algorithmic core is
`suggest_forecasting_methods` (ADF stationarity verdict, guarded seasonal
decomposition, presence flags, decision-table recommendation) plus the
conditioning steps of `main` (timestamp parsing, sorting, time-weighted
interpolation, `asfreq` resampling).  Values are modelled as exact rationals,
timestamps as integers; pandas missing values (`NaN`) are modelled as
`Option` `none`.  Library routines that the script calls but whose code is
not part of this repository (statsmodels `adfuller` and `seasonal_decompose`,
the pandas interpolation/resampling kernels) are modelled from the spec and
are marked as such in their doc comments.
-/

namespace TSApp

/-- Error taxonomy of the spec (section 7) for the tester/decomposer stages. -/
inductive DiagError
  | insufficientData
  | degenerateSeries
deriving DecidableEq

/-- StationarityReport minus the derived flag: the raw ADF test outputs
(`adf_result[0]` and `adf_result[1]` in the source). -/
structure AdfReport where
  statistic : ℚ
  pValue : ℚ
deriving DecidableEq

/-- The three aligned component series produced by the decomposition
(`decomposition.trend/seasonal/resid` in the source).  The trend and residual
carry `none` at the moving-average edge positions; the seasonal component is
total. -/
structure DecompositionResult where
  trend : List (Option ℚ)
  seasonal : List ℚ
  residual : List (Option ℚ)
deriving DecidableEq

instance {ε α : Type} [DecidableEq ε] [DecidableEq α] : DecidableEq (Except ε α) :=
  fun a b =>
    match a, b with
    | .error e, .error e' =>
      match decEq e e' with
      | isTrue h => isTrue (h ▸ rfl)
      | isFalse h => isFalse (fun hc => h (by injection hc))
    | .error _, .ok _ => isFalse (fun hc => Except.noConfusion hc)
    | .ok _, .error _ => isFalse (fun hc => Except.noConfusion hc)
    | .ok x, .ok y =>
      match decEq x y with
      | isTrue h => isTrue (h ▸ rfl)
      | isFalse h => isFalse (fun hc => h (by injection hc))

/-- pandas `Series.dropna()`: keep the defined values, in order. -/
def dropnaO (xs : List (Option ℚ)) : List ℚ := xs.filterMap id

/-- pandas `Series.mean()` (division by zero yields `0` in `ℚ`; only applied
to nonempty lists by the code paths below). -/
def mean (xs : List ℚ) : ℚ := xs.sum / (xs.length : ℚ)

/-- pandas `Series.var()` with the default `ddof = 1`:
`sum((x - mean)^2) / (n - 1)`. -/
def sampleVar (xs : List ℚ) : ℚ :=
  (xs.map (fun x => (x - mean xs) ^ 2)).sum / ((xs.length : ℚ) - 1)

/-- The Boolean test `series.std() > 0` from lines 58-59 of the source.
pandas `std` uses `ddof = 1`, so on fewer than two samples it returns `NaN`
and the comparison is `False`; on two or more samples the standard deviation
is the square root of `sampleVar`, and `sqrt v > 0` iff `v > 0` (the variance
is a sum of squares, hence nonnegative).  The comparison is therefore modelled
exactly as `2 ≤ n ∧ 0 < sampleVar`. -/
def stdGtZero (xs : List ℚ) : Bool :=
  decide (2 ≤ xs.length) && decide (0 < sampleVar xs)

/-- Modelled from the spec: statsmodels `adfuller` (library code, not part of
this repository; only its call site at line 21 of the source is).  The spec
(section 4.2) pins the behaviour the claims need: a constant (zero-variance)
series produces a singular regression and must fail with
`DegenerateSeriesError` rather than propagate a numerical exception; on
non-degenerate input the test emits a statistic and a p-value.  The regression
numerics themselves are abstracted as the `core` parameter. -/
def adfTest (core : List ℚ → AdfReport) (xs : List ℚ) : Except DiagError AdfReport :=
  if xs.all (fun x => decide (x = xs.headD 0)) then .error .degenerateSeries
  else .ok (core xs)

/-- Note written by line 73 of the source when the series is non-stationary. -/
def differencingNote : String :=
  "Consider differencing or transforming the data to achieve stationarity."

/-- Closing note written unconditionally by line 84 of the source. -/
def nonlinearNote : String :=
  "For complex patterns, consider machine learning models like LSTM networks."

/-- The method list chosen by the `if/elif/else` chain at lines 75-82 of the
source, as a function of the two presence flags. -/
def suggestMethods (hasTrend hasSeasonality : Bool) : List String :=
  if hasTrend && !hasSeasonality then
    ["Double Exponential Smoothing", "ARIMA with trend"]
  else if hasTrend && hasSeasonality then
    ["Holt-Winters Exponential Smoothing", "SARIMA"]
  else if !hasTrend && hasSeasonality then
    ["Seasonal Decomposition", "SARIMA"]
  else
    ["Simple Exponential Smoothing", "ARIMA"]

/-- The full recommendation section (lines 71-84 of the source): an optional
differencing note, exactly one method line, and the closing nonlinear
fallback, in the order the script writes them. -/
def recommendationLines (stationary hasTrend hasSeasonality : Bool) : List String :=
  (if stationary then [] else [differencingNote]) ++
    suggestMethods hasTrend hasSeasonality ++ [nonlinearNote]

/-- The decision table exactly as the spec (section 4.4) tabulates it, keyed
on (trend, seasonality); kept separate from `suggestMethods` so that the
correspondence between the code's conditional chain and the spec's table is a
theorem rather than a definition. -/
def tableRow : Bool → Bool → List String
  | true, false => ["Double Exponential Smoothing", "ARIMA with trend"]
  | true, true => ["Holt-Winters Exponential Smoothing", "SARIMA"]
  | false, true => ["Seasonal Decomposition", "SARIMA"]
  | false, false => ["Simple Exponential Smoothing", "ARIMA"]

/-- Modelled from the spec: the centered moving average of window length `p`
(section 4.3, step 1) used by statsmodels `seasonal_decompose` (library code,
not part of this repository).  For odd `p` a simple centered window of length
`p`; for even `p` a double-averaged window of length `p + 1` with half weight
at both ends.  Only evaluated at indices where the window fits. -/
def movingAvg (xs : List ℚ) (p : ℕ) (i : ℕ) : ℚ :=
  if p % 2 = 1 then
    ((List.range p).map (fun j => xs.getD (i + j - p / 2) 0)).sum / (p : ℚ)
  else
    (xs.getD (i - p / 2) 0 / 2 +
        ((List.range (p - 1)).map (fun j => xs.getD (i + 1 + j - p / 2) 0)).sum +
        xs.getD (i + p / 2) 0 / 2) / (p : ℚ)

/-- Modelled from the spec: the trend component, undefined (missing) at the
first and last `p / 2` positions (section 4.3, step 1). -/
def trendList (xs : List ℚ) (p : ℕ) : List (Option ℚ) :=
  (List.range xs.length).map fun i =>
    if p / 2 ≤ i ∧ i + p / 2 < xs.length then some (movingAvg xs p i) else none

/-- Modelled from the spec: the average of the detrended values sharing
position-in-cycle `k` (section 4.3, step 3). -/
def periodAvg (xs : List ℚ) (p : ℕ) (k : ℕ) : ℚ :=
  let idx := (List.range xs.length).filter fun i =>
    decide (p / 2 ≤ i ∧ i + p / 2 < xs.length ∧ i % p = k)
  (idx.map (fun i => xs.getD i 0 - movingAvg xs p i)).sum / (idx.length : ℚ)

/-- Modelled from the spec: the length-`p` seasonal pattern, centered so the
`p` values have mean zero (section 4.3, step 3). -/
def seasonalPattern (xs : List ℚ) (p : ℕ) (k : ℕ) : ℚ :=
  periodAvg xs p k - ((List.range p).map (periodAvg xs p)).sum / (p : ℚ)

/-- Modelled from the spec: the seasonal pattern broadcast cyclically across
the full series length (section 4.3, step 3); defined at every index. -/
def seasonalList (xs : List ℚ) (p : ℕ) : List ℚ :=
  (List.range xs.length).map fun i => seasonalPattern xs p (i % p)

/-- Modelled from the spec: the residual `original - trend - seasonal`,
defined wherever the trend is (section 4.3, step 4). -/
def residualList (xs : List ℚ) (p : ℕ) : List (Option ℚ) :=
  (List.range xs.length).map fun i =>
    if p / 2 ≤ i ∧ i + p / 2 < xs.length then
      some (xs.getD i 0 - movingAvg xs p i - seasonalPattern xs p (i % p))
    else none

/-- Modelled from the spec: statsmodels `seasonal_decompose` with
`model='additive'` (section 4.3). -/
def classicalDecompose (xs : List ℚ) (p : ℕ) : DecompositionResult :=
  ⟨trendList xs p, seasonalList xs p, residualList xs p⟩

/-- The decomposition step of the source: the explicit guard at lines 36-37
(`len(time_series.dropna()) < 2 * freq` raises) followed by the
`seasonal_decompose` call at line 38.  The raised condition is the spec's
`InsufficientDataError`; the `Except` result carries no partial components. -/
def decompose (xs : List ℚ) (p : ℕ) : Except DiagError DecompositionResult :=
  if xs.length < 2 * p then .error .insufficientData
  else .ok (classicalDecompose xs p)

/-- Everything `suggest_forecasting_methods` computes and displays for a
series that passes the ADF stage: the stationarity verdict (line 26), the
decomposition components (`None` when the decomposition step raised, lines
54-56), the presence flags (lines 58-59) and the recommendation lines
(lines 71-84). -/
structure PipeResult where
  stationary : Bool
  trend : Option (List (Option ℚ))
  seasonal : Option (List ℚ)
  residual : Option (List (Option ℚ))
  hasTrend : Bool
  hasSeasonality : Bool
  lines : List String
deriving DecidableEq

/-- The body of `suggest_forecasting_methods` (lines 8-84 of the source).
`none` models the early returns: an empty series (line 15) and a failed ADF
test (line 33).  The decomposition stage is guarded; on failure the handler at
lines 54-56 sets all three components to `None` and the flags at lines 58-59
come out `False` (`trend is not None and ...`). -/
def suggestForecastingMethods (core : List ℚ → AdfReport)
    (series : List (Option ℚ)) (freq : ℕ) : Option PipeResult :=
  if series.isEmpty then none
  else
    match adfTest core (dropnaO series) with
    | .error _ => none
    | .ok rpt =>
      let stationary := decide (rpt.pValue < 1 / 20)
      match decompose (dropnaO series) freq with
      | .error _ =>
        some ⟨stationary, none, none, none, false, false,
          recommendationLines stationary false false⟩
      | .ok d =>
        let ht := stdGtZero (dropnaO d.trend)
        let hs := stdGtZero d.seasonal
        some ⟨stationary, some d.trend, some d.seasonal, some d.residual, ht, hs,
          recommendationLines stationary ht hs⟩

/-- A raw input row after column selection: a timestamp that may have failed
to parse (`pd.to_datetime(..., errors='coerce')` yields `NaT`, modelled
`none`) and a value that may be missing.  Timestamps are modelled as integers
in the series' time unit. -/
abbrev RawRow := Option ℤ × Option ℚ

/-- Lines 118-119 of the source: parse timestamps and drop rows whose
timestamp failed to parse (`dropna(subset=[date_col])`). -/
def parseRows (rows : List RawRow) : List (ℤ × Option ℚ) :=
  rows.filterMap fun r => r.1.map fun t => (t, r.2)

/-- Line 121 of the source: `sort_index()`, ascending by timestamp. -/
def sortRows (l : List (ℤ × Option ℚ)) : List (ℤ × Option ℚ) :=
  List.insertionSort (fun a b => a.1 ≤ b.1) l

/-- The non-missing (timestamp, value) points of a series, in order. -/
def validPoints (l : List (ℤ × Option ℚ)) : List (ℤ × ℚ) :=
  l.filterMap fun r => r.2.map fun v => (r.1, v)

/-- The nearest non-missing point strictly before index `i`. -/
def prevVal (l : List (ℤ × Option ℚ)) (i : ℕ) : Option (ℤ × ℚ) :=
  (validPoints (l.take i)).getLast?

/-- The nearest non-missing point strictly after index `i`. -/
def nextVal (l : List (ℤ × Option ℚ)) (i : ℕ) : Option (ℤ × ℚ) :=
  (validPoints (l.drop (i + 1))).head?

/-- Modelled from the spec: how pandas `interpolate(method='time')` (library
code, not part of this repository; called at line 122 of the source) fills
the value at one position.  A missing value with non-missing neighbours on
both sides is filled by time-proportional linear interpolation (section 4.1);
a missing value after the last non-missing point is clamped to that point's
value (pandas' default forward limit direction); a missing value before the
first non-missing point stays missing. -/
def fillAt (orig : List (ℤ × Option ℚ)) (i : ℕ) (t : ℤ) : Option ℚ → Option ℚ
  | some v => some v
  | none =>
    match prevVal orig i, nextVal orig i with
    | some (ta, va), some (tb, vb) =>
      some (va + (vb - va) * ((t : ℚ) - (ta : ℚ)) / ((tb : ℚ) - (ta : ℚ)))
    | some (_, va), none => some va
    | none, _ => none

/-- Walk the series applying `fillAt` position by position; neighbours are
always looked up in the original series (interpolation does not cascade). -/
def interpAux (orig : List (ℤ × Option ℚ)) : ℕ → List (ℤ × Option ℚ) → List (ℤ × Option ℚ)
  | _, [] => []
  | i, (t, v) :: rest => (t, fillAt orig i t v) :: interpAux orig (i + 1) rest

/-- Line 122 of the source: `interpolate(method='time')` over the sorted
series. -/
def interpolateTime (l : List (ℤ × Option ℚ)) : List (ℤ × Option ℚ) :=
  interpAux l 0 l

/-- Reindexing lookup: the value stored at timestamp `t`, or `none` when `t`
is absent from the series. -/
def lookupVal (l : List (ℤ × Option ℚ)) (t : ℤ) : Option ℚ :=
  match l.find? (fun r => decide (r.1 = t)) with
  | some r => r.2
  | none => none

/-- Line 130 of the source: `asfreq` — reindex onto the regular grid running
from the first to the last timestamp in steps of `f`; grid points absent from
the series are inserted as missing, and off-grid input points are dropped. -/
def asfreq (f : ℕ) (l : List (ℤ × Option ℚ)) : List (ℤ × Option ℚ) :=
  match l with
  | [] => []
  | a :: rest =>
    let b := (a :: rest).getLast (List.cons_ne_nil a rest)
    (List.range ((b.1 - a.1).toNat / f + 1)).map fun k : ℕ =>
      (a.1 + (k : ℤ) * (f : ℤ), lookupVal (a :: rest) (a.1 + (k : ℤ) * (f : ℤ)))

/-- The conditioning pipeline of `main` in source order: parse and drop bad
timestamps (lines 118-119), sort (line 121), interpolate (line 122), abort if
every value is still missing (lines 124-126), and only then resample with
`asfreq` (line 130). -/
def conditionCode (rows : List RawRow) (f : ℕ) : Option (List (ℤ × Option ℚ)) :=
  let interp := interpolateTime (sortRows (parseRows rows))
  if interp.all (fun r => r.2.isNone) then none else some (asfreq f interp)

/-- Modelled from the spec: the per-position fill rule exactly as section 4.1
words it — interior missing values (non-missing neighbours on both sides) are
filled time-proportionally, leading and trailing missing values stay
missing. -/
def fillAtSpec (orig : List (ℤ × Option ℚ)) (i : ℕ) (t : ℤ) : Option ℚ → Option ℚ
  | some v => some v
  | none =>
    match prevVal orig i, nextVal orig i with
    | some (ta, va), some (tb, vb) =>
      some (va + (vb - va) * ((t : ℚ) - (ta : ℚ)) / ((tb : ℚ) - (ta : ℚ)))
    | _, _ => none

/-- Modelled from the spec: spec-ordered interpolation pass. -/
def interpSpecAux (orig : List (ℤ × Option ℚ)) :
    ℕ → List (ℤ × Option ℚ) → List (ℤ × Option ℚ)
  | _, [] => []
  | i, (t, v) :: rest => (t, fillAtSpec orig i t v) :: interpSpecAux orig (i + 1) rest

/-- Modelled from the spec: the conditioner as section 4.1 orders it — first
resample onto the strictly regular grid (gaps inserted as missing), then fill
interior missing values by time-proportional interpolation, with leading and
trailing missing values left missing. -/
def conditionSpec (rows : List RawRow) (f : ℕ) : List (ℤ × Option ℚ) :=
  let grid := asfreq f (sortRows (parseRows rows))
  interpSpecAux grid 0 grid

/-- A fixed stand-in for the abstracted ADF regression numerics, used to
instantiate the theorems below at concrete inputs. -/
def constCore : List ℚ → AdfReport := fun _ => ⟨0, 1 / 10⟩

lemma decompose_short {xs : List ℚ} {p : ℕ} (h : xs.length < 2 * p) :
    decompose xs p = .error .insufficientData := by
  simp [decompose, h]

lemma decompose_ok {xs : List ℚ} {p : ℕ} (h : ¬ xs.length < 2 * p) :
    decompose xs p = .ok (classicalDecompose xs p) := by
  simp [decompose, h]

/-- C2: the recommendation engine is total — it is a plain function of its
three Boolean inputs (so it cannot raise), and on each of the 8 combinations
of (stationary, trend, seasonality) it emits a non-empty method list (and so
a non-empty recommendation section). -/
theorem c2_recommendation_totality :
    ∀ stationary hasTrend hasSeasonality : Bool,
      suggestMethods hasTrend hasSeasonality ≠ [] ∧
      recommendationLines stationary hasTrend hasSeasonality ≠ [] := by
  decide

/-- C4: whenever the non-missing length of the series is strictly below twice
the period, the decomposition step fails with the `InsufficientDataError`
condition (the guard at lines 36-37 of the source raises before
`seasonal_decompose` runs); the `Except` result carries no partial
components. -/
theorem c4_insufficient_data (series : List (Option ℚ)) (p : ℕ)
    (h : (dropnaO series).length < 2 * p) :
    decompose (dropnaO series) p = .error .insufficientData :=
  decompose_short h

/-- Witness for C4: the spec's example — 10 points at period 12 fail. -/
theorem c4_insufficient_data_witness :
    decompose (dropnaO [some 0, some 1, some 2, some 3, some 4, some 5, some 6,
      some 7, some 8, some 9]) 12 = .error .insufficientData :=
  c4_insufficient_data
    [some 0, some 1, some 2, some 3, some 4, some 5, some 6, some 7, some 8, some 9]
    12 (by decide)

/-- C5: a constant (zero-variance) series makes the ADF stage fail with the
typed, recoverable `DegenerateSeriesError` condition — independently of the
abstracted regression numerics — rather than propagating a numerical
exception. -/
theorem c5_degenerate_on_constant (core : List ℚ → AdfReport)
    (xs : List ℚ) (c : ℚ) (hne : xs ≠ []) (hconst : ∀ x ∈ xs, x = c) :
    adfTest core xs = .error .degenerateSeries := by
  cases xs with
  | nil => exact absurd rfl hne
  | cons a tl =>
    have hall : ((a :: tl).all fun x => decide (x = (a :: tl).headD 0)) = true := by
      simp only [List.all_eq_true, decide_eq_true_eq, List.headD_cons]
      intro x hx
      rw [hconst x hx, hconst a (List.mem_cons_self a tl)]
    simp only [adfTest]
    rw [if_pos hall]

/-- Witness for C5: the spec's example — a flat series of 50 identical
values reports the degenerate condition. -/
theorem c5_degenerate_on_constant_witness :
    adfTest constCore (List.replicate 50 (7 : ℚ)) = .error .degenerateSeries :=
  c5_degenerate_on_constant constCore (List.replicate 50 (7 : ℚ)) 7
    (by decide) (by decide)

/-- Inversion of a completed pipeline run: the verdict is the `p < 0.05` rule
applied to the ADF report, the displayed lines are the recommendation section
for the three computed flags, and the components/flags are determined by
whether the decomposition step succeeded. -/
lemma suggest_spec {core : List ℚ → AdfReport} {series : List (Option ℚ)}
    {freq : ℕ} {res : PipeResult} {rpt : AdfReport}
    (hadf : adfTest core (dropnaO series) = .ok rpt)
    (hrun : suggestForecastingMethods core series freq = some res) :
    res.stationary = decide (rpt.pValue < 1 / 20) ∧
    res.lines = recommendationLines res.stationary res.hasTrend res.hasSeasonality ∧
    ((decompose (dropnaO series) freq = .error .insufficientData ∧
        res.trend = none ∧ res.seasonal = none ∧ res.residual = none ∧
        res.hasTrend = false ∧ res.hasSeasonality = false) ∨
      (∃ d, decompose (dropnaO series) freq = .ok d ∧
        res.trend = some d.trend ∧ res.seasonal = some d.seasonal ∧
        res.residual = some d.residual ∧
        res.hasTrend = stdGtZero (dropnaO d.trend) ∧
        res.hasSeasonality = stdGtZero d.seasonal)) := by
  by_cases hemp : series.isEmpty = true
  · simp [suggestForecastingMethods, hemp] at hrun
  · unfold suggestForecastingMethods at hrun
    rw [if_neg hemp, hadf] at hrun
    cases hdec : decompose (dropnaO series) freq with
    | error e =>
      have he : e = DiagError.insufficientData := by
        by_cases hlen : (dropnaO series).length < 2 * freq
        · have h2 := decompose_short hlen
          rw [hdec] at h2
          exact Except.error.inj h2
        · rw [decompose_ok hlen] at hdec
          exact absurd hdec (by simp)
      subst he
      rw [hdec] at hrun
      simp only [Option.some.injEq] at hrun
      subst hrun
      exact ⟨rfl, rfl, Or.inl ⟨rfl, rfl, rfl, rfl, rfl, rfl⟩⟩
    | ok d =>
      rw [hdec] at hrun
      simp only [Option.some.injEq] at hrun
      subst hrun
      exact ⟨rfl, rfl, Or.inr ⟨d, rfl, rfl, rfl, rfl, rfl, rfl⟩⟩

/-- C6: whenever the ADF stage succeeds and the pipeline completes, the
stationarity verdict is `true` exactly when the test's p-value is strictly
below 0.05 (line 26 of the source). -/
theorem c6_stationarity_rule (core : List ℚ → AdfReport)
    (series : List (Option ℚ)) (freq : ℕ) (res : PipeResult) (rpt : AdfReport)
    (hadf : adfTest core (dropnaO series) = .ok rpt)
    (hrun : suggestForecastingMethods core series freq = some res) :
    res.stationary = true ↔ rpt.pValue < 1 / 20 := by
  rcases suggest_spec hadf hrun with ⟨hst, -, -⟩
  rw [hst]
  exact decide_eq_true_iff

/-- The result of running the pipeline on a non-constant two-point series
whose decomposition is too short to succeed. -/
def resNoDecomp : PipeResult :=
  ⟨false, none, none, none, false, false,
    [differencingNote, "Simple Exponential Smoothing", "ARIMA", nonlinearNote]⟩

/-- Witness for C6 at a concrete run: `constCore` reports p-value 1/10, and
the verdict is `false` since 1/10 is not below 1/20. -/
theorem c6_stationarity_rule_witness :
    resNoDecomp.stationary = true ↔ (AdfReport.mk 0 (1 / 10)).pValue < 1 / 20 :=
  c6_stationarity_rule constCore [some 1, some 2] 2 resNoDecomp ⟨0, 1 / 10⟩
    rfl
    (by norm_num [suggestForecastingMethods, adfTest, dropnaO, constCore, decompose,
      recommendationLines, suggestMethods, resNoDecomp, List.filterMap_cons])

/-- C1: the emitted recommendation is a pure function of the three flags:
the method list is exactly the spec's decision-table row for
(has_trend, has_seasonality), the differencing note is prepended exactly when
the series is non-stationary, and the nonlinear fallback note closes every
recommendation; the four table rows are listed explicitly. -/
theorem c1_decision_table (core : List ℚ → AdfReport)
    (series : List (Option ℚ)) (freq : ℕ) (res : PipeResult) (rpt : AdfReport)
    (hadf : adfTest core (dropnaO series) = .ok rpt)
    (hrun : suggestForecastingMethods core series freq = some res) :
    res.lines = (if res.stationary then [] else [differencingNote]) ++
        tableRow res.hasTrend res.hasSeasonality ++ [nonlinearNote] ∧
      tableRow true false = ["Double Exponential Smoothing", "ARIMA with trend"] ∧
      tableRow true true = ["Holt-Winters Exponential Smoothing", "SARIMA"] ∧
      tableRow false true = ["Seasonal Decomposition", "SARIMA"] ∧
      tableRow false false = ["Simple Exponential Smoothing", "ARIMA"] := by
  rcases suggest_spec hadf hrun with ⟨-, hlines, -⟩
  refine ⟨?_, rfl, rfl, rfl, rfl⟩
  rw [hlines]
  have htable : ∀ ht hs : Bool, suggestMethods ht hs = tableRow ht hs := by decide
  cases res.stationary <;>
    simp [recommendationLines, htable res.hasTrend res.hasSeasonality]

/-- Witness for C1 at a concrete run (non-stationary, no trend, no
seasonality): the displayed lines are the differencing note, the
(false, false) table row, and the closing note. -/
theorem c1_decision_table_witness :
    resNoDecomp.lines = (if resNoDecomp.stationary then [] else [differencingNote]) ++
        tableRow resNoDecomp.hasTrend resNoDecomp.hasSeasonality ++ [nonlinearNote] ∧
      tableRow true false = ["Double Exponential Smoothing", "ARIMA with trend"] ∧
      tableRow true true = ["Holt-Winters Exponential Smoothing", "SARIMA"] ∧
      tableRow false true = ["Seasonal Decomposition", "SARIMA"] ∧
      tableRow false false = ["Simple Exponential Smoothing", "ARIMA"] :=
  c1_decision_table constCore [some 1, some 2] 2 resNoDecomp ⟨0, 1 / 10⟩
    rfl
    (by norm_num [suggestForecastingMethods, adfTest, dropnaO, constCore, decompose,
      recommendationLines, suggestMethods, resNoDecomp, List.filterMap_cons])

/-- C10: when the decomposition step fails (here: the series is shorter than
twice the period, so the guard raises and the handler at lines 54-56 runs),
the pipeline still completes: the three components are `None`, both presence
flags are `false`, and the no-trend/no-seasonality recommendation is still
emitted, closed by the fallback note. -/
theorem c10_decomposition_failure_recovery (core : List ℚ → AdfReport)
    (series : List (Option ℚ)) (freq : ℕ) (rpt : AdfReport)
    (hemp : series.isEmpty = false)
    (hadf : adfTest core (dropnaO series) = .ok rpt)
    (hshort : (dropnaO series).length < 2 * freq) :
    suggestForecastingMethods core series freq =
        some ⟨decide (rpt.pValue < 1 / 20), none, none, none, false, false,
          (if decide (rpt.pValue < 1 / 20) then [] else [differencingNote]) ++
            ["Simple Exponential Smoothing", "ARIMA"] ++ [nonlinearNote]⟩ ∧
      suggestMethods false false = ["Simple Exponential Smoothing", "ARIMA"] := by
  refine ⟨?_, rfl⟩
  unfold suggestForecastingMethods
  rw [if_neg (by simp [hemp]), hadf, decompose_short hshort]
  rfl

/-- Witness for C10: a two-point series at period 12 (10 needed points short
of the 24 the guard demands) still yields the Simple Exponential
Smoothing / ARIMA recommendation. -/
theorem c10_decomposition_failure_recovery_witness :
    suggestForecastingMethods constCore [some 1, some 2] 12 =
        some ⟨decide ((1 : ℚ) / 10 < 1 / 20), none, none, none, false, false,
          (if decide ((1 : ℚ) / 10 < 1 / 20) then [] else [differencingNote]) ++
            ["Simple Exponential Smoothing", "ARIMA"] ++ [nonlinearNote]⟩ ∧
      suggestMethods false false = ["Simple Exponential Smoothing", "ARIMA"] :=
  c10_decomposition_failure_recovery constCore [some 1, some 2] 12 ⟨0, 1 / 10⟩
    rfl rfl (by decide)

/-- C3: for every decomposition the guard lets through, and at every index
where the trend is defined, the residual is defined too and
`trend + seasonal + residual` reconstructs the original value — exactly, in
`ℚ`, hence within any floating-point tolerance. -/
theorem c3_reconstruction (xs : List ℚ) (p : ℕ) (r : DecompositionResult)
    (hok : decompose xs p = .ok r) (i : ℕ) (t : ℚ)
    (ht : r.trend.getD i none = some t) :
    ∃ u, r.residual.getD i none = some u ∧
      t + r.seasonal.getD i 0 + u = xs.getD i 0 := by
  have hr : r = classicalDecompose xs p := by
    by_cases hlen : xs.length < 2 * p
    · rw [decompose_short hlen] at hok
      exact absurd hok (by simp)
    · rw [decompose_ok hlen] at hok
      exact (Except.ok.inj hok).symm
  subst hr
  simp only [classicalDecompose] at ht ⊢
  have hi : i < xs.length := by
    by_contra hge
    push_neg at hge
    rw [List.getD_eq_default _ _ (by simpa [trendList] using hge)] at ht
    exact Option.noConfusion ht
  have hlt : i < (trendList xs p).length := by simpa [trendList] using hi
  rw [List.getD_eq_getElem _ _ hlt] at ht
  simp only [trendList, List.getElem_map, List.getElem_range] at ht
  by_cases hcond : p / 2 ≤ i ∧ i + p / 2 < xs.length
  · rw [if_pos hcond] at ht
    have htv : t = movingAvg xs p i := (Option.some.inj ht).symm
    refine ⟨xs.getD i 0 - movingAvg xs p i - seasonalPattern xs p (i % p), ?_, ?_⟩
    · have hlt2 : i < (residualList xs p).length := by simpa [residualList] using hi
      rw [List.getD_eq_getElem _ _ hlt2]
      simp only [residualList, List.getElem_map, List.getElem_range]
      rw [if_pos hcond]
    · have hlt3 : i < (seasonalList xs p).length := by simpa [seasonalList] using hi
      rw [List.getD_eq_getElem _ _ hlt3]
      simp only [seasonalList, List.getElem_map, List.getElem_range]
      rw [htv]
      ring
  · rw [if_neg hcond] at ht
    exact Option.noConfusion ht

/-- Witness for C3: on the series `[1, 2, 3, 4]` with period 2 the trend at
index 1 is 2, and the components there sum back to the original value. -/
theorem c3_reconstruction_witness :
    ∃ u, (classicalDecompose [1, 2, 3, 4] 2).residual.getD 1 none = some u ∧
      (2 : ℚ) + (classicalDecompose [1, 2, 3, 4] 2).seasonal.getD 1 0 + u =
        ([1, 2, 3, 4] : List ℚ).getD 1 0 :=
  c3_reconstruction [1, 2, 3, 4] 2 (classicalDecompose [1, 2, 3, 4] 2) rfl 1 2
    (by norm_num [classicalDecompose, trendList, movingAvg, List.range_succ])

lemma filterMap_forall_none {α β : Type} (f : α → Option β) (l : List α)
    (H : ∀ a ∈ l, f a = none) : l.filterMap f = [] := by
  induction l with
  | nil => rfl
  | cons a tl ih =>
    rw [List.filterMap_cons, H a (List.mem_cons_self a tl)]
    exact ih fun x hx => H x (List.mem_cons_of_mem a hx)

lemma filterMap_forall_some {α β : Type} (f : α → Option β) (g : α → β) (l : List α)
    (H : ∀ a ∈ l, f a = some (g a)) : l.filterMap f = l.map g := by
  induction l with
  | nil => rfl
  | cons a tl ih =>
    rw [List.filterMap_cons, H a (List.mem_cons_self a tl), List.map_cons,
      ih fun x hx => H x (List.mem_cons_of_mem a hx)]

lemma range_split_three (h m : ℕ) :
    List.range (h + m + h) = List.range' 0 h ++ List.range' h m ++ List.range' (h + m) h := by
  rw [List.range_eq_range', List.append_assoc]
  have e1 : List.range' h m ++ List.range' (h + m) h = List.range' h (h + m) := by
    have e0 := List.range'_append h m h 1
    simp only [Nat.one_mul] at e0
    exact e0
  rw [e1]
  have e2 := List.range'_append 0 h (h + m) 1
  simp only [Nat.one_mul, Nat.zero_add] at e2
  exact e2.symm

/-- The non-missing trend values are exactly the moving averages over the
interior window: `p / 2` missing entries are dropped at each end. -/
lemma dropna_trendList (xs : List ℚ) (p : ℕ) (hn : 2 * (p / 2) ≤ xs.length) :
    dropnaO (trendList xs p) =
      (List.range (xs.length - 2 * (p / 2))).map (fun j => movingAvg xs p (p / 2 + j)) := by
  unfold dropnaO trendList
  rw [List.filterMap_map]
  have hn' : xs.length = p / 2 + (xs.length - 2 * (p / 2)) + p / 2 := by omega
  rw [hn', range_split_three, List.filterMap_append, List.filterMap_append]
  rw [filterMap_forall_none _ _ ?h1, filterMap_forall_some _ (fun i => movingAvg xs p i) _ ?h2,
    filterMap_forall_none _ _ ?h3]
  case h1 =>
    intro a ha
    rw [List.mem_range'_1] at ha
    simp only [Function.comp, id]
    rw [if_neg]
    omega
  case h2 =>
    intro a ha
    rw [List.mem_range'_1] at ha
    simp only [Function.comp, id]
    rw [if_pos]
    omega
  case h3 =>
    intro a ha
    rw [List.mem_range'_1] at ha
    simp only [Function.comp, id]
    rw [if_neg]
    omega
  rw [List.range'_eq_map_range, List.map_map]
  have harith : p / 2 + (xs.length - 2 * (p / 2)) + p / 2 - 2 * (p / 2) =
      xs.length - 2 * (p / 2) := by omega
  rw [harith]
  simp only [List.nil_append, List.append_nil]
  rfl

/-- A completed pipeline run implies the ADF stage succeeded. -/
lemma suggest_adf_ok {core : List ℚ → AdfReport} {series : List (Option ℚ)}
    {freq : ℕ} {res : PipeResult}
    (hrun : suggestForecastingMethods core series freq = some res) :
    ∃ rpt, adfTest core (dropnaO series) = .ok rpt := by
  unfold suggestForecastingMethods at hrun
  by_cases hemp : series.isEmpty = true
  · rw [if_pos hemp] at hrun
    exact Option.noConfusion hrun
  · rw [if_neg hemp] at hrun
    cases hadf : adfTest core (dropnaO series) with
    | error e =>
      rw [hadf] at hrun
      simp at hrun
    | ok rpt => exact ⟨rpt, rfl⟩

/-- C7: for every decomposition the pipeline accepts, `has_trend` is `true`
iff the sample variance of the non-missing trend values is strictly positive,
and `has_seasonality` is `true` iff the sample variance of the seasonal
values is strictly positive (line 58-59 of the source test `std() > 0`, and
for the at-least-two samples guaranteed here the standard deviation is
positive iff the variance is; in particular a perfectly flat component has
variance zero and yields `false`). -/
theorem c7_presence_flags (core : List ℚ → AdfReport) (series : List (Option ℚ))
    (freq : ℕ) (res : PipeResult) (d : DecompositionResult)
    (hp : 1 ≤ freq)
    (hrun : suggestForecastingMethods core series freq = some res)
    (hdec : decompose (dropnaO series) freq = .ok d) :
    (res.hasTrend = true ↔ 0 < sampleVar (dropnaO d.trend)) ∧
    (res.hasSeasonality = true ↔ 0 < sampleVar d.seasonal) := by
  obtain ⟨rpt, hadf⟩ := suggest_adf_ok hrun
  rcases suggest_spec hadf hrun with ⟨-, -, hcase⟩
  rcases hcase with ⟨herr, -⟩ | ⟨d', hdec', -, -, -, hht, hhs⟩
  · rw [herr] at hdec
    exact absurd hdec (by simp)
  · have hd : d' = d := by
      rw [hdec'] at hdec
      exact Except.ok.inj hdec
    subst hd
    have hguard : ¬ (dropnaO series).length < 2 * freq := by
      intro hlt
      rw [decompose_short hlt] at hdec'
      exact absurd hdec' (by simp)
    have hge : 2 * freq ≤ (dropnaO series).length := not_lt.mp hguard
    have hdc : d' = classicalDecompose (dropnaO series) freq := by
      rw [decompose_ok hguard] at hdec'
      exact (Except.ok.inj hdec').symm
    constructor
    · rw [hht]
      have hlen : (dropnaO d'.trend).length =
          (dropnaO series).length - 2 * (freq / 2) := by
        rw [hdc]
        show (dropnaO (trendList (dropnaO series) freq)).length = _
        rw [dropna_trendList _ _ (by omega)]
        simp
      have h2 : 2 ≤ (dropnaO d'.trend).length := by
        rw [hlen]
        omega
      unfold stdGtZero
      rw [Bool.and_eq_true, decide_eq_true_iff, decide_eq_true_iff]
      exact ⟨fun h => h.2, fun h => ⟨h2, h⟩⟩
    · rw [hhs]
      have hlen : d'.seasonal.length = (dropnaO series).length := by
        rw [hdc]
        show (seasonalList (dropnaO series) freq).length = _
        simp [seasonalList]
      have h2 : 2 ≤ d'.seasonal.length := by
        rw [hlen]
        omega
      unfold stdGtZero
      rw [Bool.and_eq_true, decide_eq_true_iff, decide_eq_true_iff]
      exact ⟨fun h => h.2, fun h => ⟨h2, h⟩⟩

/-- The decomposition of the series `[1, 2, 3, 4]` at period 2: trend
`[none, 2, 3, none]`, seasonal identically zero, residual `[none, 0, 0, none]`. -/
def decompFour : DecompositionResult := classicalDecompose [1, 2, 3, 4] 2

/-- The pipeline result on `[1, 2, 3, 4]` at period 2: trend present (its
non-missing values 2 and 3 vary), seasonality absent (flat zero pattern). -/
def resFour : PipeResult :=
  ⟨false, some decompFour.trend, some decompFour.seasonal, some decompFour.residual,
    true, false, recommendationLines false true false⟩

/-- Witness for C7: on `[1, 2, 3, 4]` at period 2 the trend flag is `true`
and its non-missing values have positive variance; the seasonality flag is
`false` and the seasonal values have variance zero. -/
theorem c7_presence_flags_witness :
    (resFour.hasTrend = true ↔ 0 < sampleVar (dropnaO decompFour.trend)) ∧
    (resFour.hasSeasonality = true ↔ 0 < sampleVar decompFour.seasonal) :=
  c7_presence_flags constCore [some 1, some 2, some 3, some 4] 2 resFour decompFour
    (by decide)
    (by norm_num [suggestForecastingMethods, adfTest, dropnaO, constCore, decompose,
      recommendationLines, suggestMethods, resFour, decompFour, classicalDecompose,
      trendList, movingAvg, seasonalList, seasonalPattern, periodAvg, residualList,
      stdGtZero, sampleVar, mean, List.filterMap_cons, List.range_succ])
    rfl

lemma interpAux_map_fst (orig : List (ℤ × Option ℚ)) :
    ∀ (k : ℕ) (l : List (ℤ × Option ℚ)),
      (interpAux orig k l).map Prod.fst = l.map Prod.fst := by
  intro k l
  induction l generalizing k with
  | nil => rfl
  | cons a rest ih =>
    obtain ⟨t, v⟩ := a
    simp only [interpAux, List.map_cons]
    rw [ih (k + 1)]

/-- Every defined value in a resampled series sits at a timestamp that the
series already carried with that same value: `asfreq` only inserts missing
values, it never invents defined ones. -/
lemma asfreq_defined_mem {f : ℕ} {l : List (ℤ × Option ℚ)} {t : ℤ} {v : ℚ}
    (hmem : (t, some v) ∈ asfreq f l) : (t, some v) ∈ l := by
  unfold asfreq at hmem
  cases l with
  | nil => simp at hmem
  | cons a rest =>
    rw [List.mem_map] at hmem
    obtain ⟨k, -, hk⟩ := hmem
    rw [Prod.ext_iff] at hk
    obtain ⟨hk1, hk2⟩ := hk
    simp only at hk1 hk2
    unfold lookupVal at hk2
    cases hf : (a :: rest).find? (fun r => decide (r.1 = a.1 + (k : ℤ) * (f : ℤ))) with
    | none =>
      rw [hf] at hk2
      simp at hk2
    | some r =>
      rw [hf] at hk2
      simp only at hk2
      have hps := List.find?_some hf
      have hr1 : r.1 = a.1 + (k : ℤ) * (f : ℤ) := of_decide_eq_true hps
      have hr : r = (t, some v) := Prod.ext (by rw [hr1]; exact hk1) hk2
      rw [← hr]
      exact List.mem_of_find?_eq_some hf

/-- C8 (amended): the conditioner interpolates before it resamples, so every
defined value of the conditioned output already occurs — same timestamp, same
value — in the interpolated pre-resampling series, and its timestamp is one
of the input's own (parsed) timestamps.  Contrapositively, the grid positions
`asfreq` inserts (timestamps absent from the input) remain missing in the
conditioned output, interior or not. -/
theorem c8_fill_before_resample (rows : List RawRow) (f : ℕ)
    (out : List (ℤ × Option ℚ)) (t : ℤ) (v : ℚ)
    (hrun : conditionCode rows f = some out) (hmem : (t, some v) ∈ out) :
    (t, some v) ∈ interpolateTime (sortRows (parseRows rows)) ∧
      t ∈ (parseRows rows).map Prod.fst := by
  simp only [conditionCode] at hrun
  by_cases hall : (interpolateTime (sortRows (parseRows rows))).all
      (fun r => r.2.isNone) = true
  · rw [if_pos hall] at hrun
    exact Option.noConfusion hrun
  · rw [if_neg hall] at hrun
    have hout : out = asfreq f (interpolateTime (sortRows (parseRows rows))) :=
      (Option.some.inj hrun).symm
    subst hout
    have h1 := asfreq_defined_mem hmem
    refine ⟨h1, ?_⟩
    have h2 : t ∈ (interpolateTime (sortRows (parseRows rows))).map Prod.fst :=
      List.mem_map_of_mem Prod.fst h1
    rw [interpolateTime, interpAux_map_fst] at h2
    have hperm : ((sortRows (parseRows rows)).map Prod.fst).Perm
        ((parseRows rows).map Prod.fst) :=
      (List.perm_insertionSort _ (parseRows rows)).map Prod.fst
    exact hperm.mem_iff.mp h2

/-- Witness for C8 (amended): on a two-point already-regular input every
defined output value traces back to the interpolated series at an input
timestamp. -/
theorem c8_fill_before_resample_witness :
    ((0 : ℤ), some (5 : ℚ)) ∈ interpolateTime (sortRows (parseRows
        [(some 0, some 5), (some 1, some 7)])) ∧
      (0 : ℤ) ∈ (parseRows [(some 0, some 5), (some 1, some 7)]).map Prod.fst :=
  c8_fill_before_resample [(some 0, some 5), (some 1, some 7)] 1
    [(0, some 5), (1, some 7)] 0 5 (by decide) (by decide)

/-- Counterexample for C8 as stated: on the input `[(0, 0), (2, 2)]` at
frequency 1 the code's conditioner (interpolate at line 122, resample at
line 130 — in that order) emits `(1, missing)`: an interior grid position
whose both neighbours are defined stays missing.  The spec-ordered
conditioner (resample first, then fill interior gaps) fills it with the
time-proportional value 1. -/
theorem c8_counterexample :
    conditionCode [(some 0, some 0), (some 2, some 2)] 1 =
        some [(0, some 0), (1, none), (2, some 2)] ∧
      conditionSpec [(some 0, some 0), (some 2, some 2)] 1 =
        [(0, some 0), (1, some 1), (2, some 2)] := by
  constructor
  · decide
  · have h1 : asfreq 1 (sortRows (parseRows [(some 0, some 0), (some 2, some 2)])) =
        [(0, some 0), (1, none), (2, some 2)] := by decide
    show interpSpecAux (asfreq 1 (sortRows (parseRows
        [(some 0, some 0), (some 2, some 2)]))) 0
      (asfreq 1 (sortRows (parseRows [(some 0, some 0), (some 2, some 2)]))) = _
    rw [h1]
    norm_num [interpSpecAux, fillAtSpec, prevVal, nextVal, validPoints]

lemma parse_total (l : List (ℤ × ℚ)) :
    parseRows (l.map fun r => (some r.1, some r.2)) = l.map fun r => (r.1, some r.2) := by
  induction l with
  | nil => rfl
  | cons a tl ih =>
    simp only [parseRows] at ih
    simp [parseRows, List.filterMap_cons, ih]

lemma interp_all_some (orig : List (ℤ × Option ℚ)) :
    ∀ (k : ℕ) (l : List (ℤ × Option ℚ)), (∀ r ∈ l, r.2.isSome) → interpAux orig k l = l := by
  intro k l
  induction l generalizing k with
  | nil => intro _; rfl
  | cons a tl ih =>
    intro H
    obtain ⟨t, v⟩ := a
    have hv := H (t, v) (List.mem_cons_self _ _)
    obtain ⟨x, hx⟩ := Option.isSome_iff_exists.mp hv
    subst hx
    simp only [interpAux, fillAt]
    rw [ih (k + 1) fun r hr => H r (List.mem_cons_of_mem _ hr)]

/-- On a series whose timestamps run in arithmetic progression `t0 + i * f`,
reindexing lookup at the `k`-th grid point finds exactly the `k`-th entry. -/
lemma find_arith (f : ℕ) (hf : 1 ≤ f) :
    ∀ (l : List (ℤ × Option ℚ)) (t0 : ℤ) (k : ℕ) (hk : k < l.length),
      (∀ i (hi : i < l.length), (l[i]).1 = t0 + (i : ℤ) * (f : ℤ)) →
      l.find? (fun r => decide (r.1 = t0 + (k : ℤ) * (f : ℤ))) = some l[k] := by
  intro l
  induction l with
  | nil =>
    intro t0 k hk _
    exact absurd hk (by simp)
  | cons a rest ih =>
    intro t0 k hk hget
    have ha : a.1 = t0 := by
      have h0 := hget 0 (by simp)
      simpa using h0
    cases k with
    | zero =>
      rw [List.find?_cons_of_pos _ (by simp [ha])]
      simp
    | succ k =>
      have hfz : (0 : ℤ) < (f : ℤ) := by exact_mod_cast hf
      rw [List.find?_cons_of_neg _ ?hneg]
      case hneg =>
        simp only [ha, decide_eq_true_eq]
        intro hcontra
        have hpos : (0 : ℤ) < ((k + 1 : ℕ) : ℤ) * (f : ℤ) := by
          apply mul_pos _ hfz
          exact_mod_cast Nat.succ_pos k
        omega
      have hget2 : ∀ i (hi : i < rest.length), (rest[i]).1 = (t0 + f) + (i : ℤ) * (f : ℤ) := by
        intro i hi
        have h1 := hget (i + 1) (by simpa using Nat.succ_lt_succ hi)
        simp only [List.getElem_cons_succ] at h1
        rw [h1]
        push_cast
        ring
      have hrec := ih (t0 + f) k (by simpa using Nat.lt_of_succ_lt_succ hk) hget2
      have hfun : (fun r : ℤ × Option ℚ => decide (r.1 = t0 + ((k + 1 : ℕ) : ℤ) * (f : ℤ))) =
          (fun r : ℤ × Option ℚ => decide (r.1 = (t0 + f) + (k : ℤ) * (f : ℤ))) := by
        funext r
        have he : t0 + ((k + 1 : ℕ) : ℤ) * (f : ℤ) = (t0 + f) + (k : ℤ) * (f : ℤ) := by
          push_cast
          ring
        rw [he]
      rw [hfun, hrec]
      simp

/-- Resampling a series that is already on the regular grid reproduces it:
the grid recomputed from the endpoints has the same length, and lookup at
each grid point recovers the stored entry. -/
lemma asfreq_self (f : ℕ) (hf : 1 ≤ f) (t0 : ℤ) (l : List (ℤ × Option ℚ)) (hne : l ≠ [])
    (hget : ∀ i (hi : i < l.length), (l[i]).1 = t0 + (i : ℤ) * (f : ℤ)) :
    asfreq f l = l := by
  cases l with
  | nil => exact absurd rfl hne
  | cons a rest =>
    have ha : a.1 = t0 := by
      have h0 := hget 0 (by simp)
      simpa using h0
    have hlen1 : 1 ≤ (a :: rest).length := by simp
    have hlast : ((a :: rest).getLast (List.cons_ne_nil a rest)).1 =
        t0 + (((a :: rest).length - 1 : ℕ) : ℤ) * (f : ℤ) := by
      rw [List.getLast_eq_getElem]
      exact hget _ (by omega)
    have hcount : (((a :: rest).getLast (List.cons_ne_nil a rest)).1 - a.1).toNat / f + 1 =
        (a :: rest).length := by
      rw [hlast, ha]
      have he : t0 + (((a :: rest).length - 1 : ℕ) : ℤ) * (f : ℤ) - t0 =
          ((((a :: rest).length - 1) * f : ℕ) : ℤ) := by
        push_cast
        ring
      rw [he, Int.toNat_natCast, Nat.mul_div_cancel _ (by omega)]
      omega
    show (List.range ((((a :: rest).getLast (List.cons_ne_nil a rest)).1 - a.1).toNat / f + 1)).map
        (fun k : ℕ => (a.1 + (k : ℤ) * (f : ℤ), lookupVal (a :: rest) (a.1 + (k : ℤ) * (f : ℤ)))) =
      a :: rest
    rw [hcount]
    apply List.ext_getElem
    · simp
    · intro k hk1 hk2
      simp only [List.getElem_map, List.getElem_range]
      have hka : a.1 + (k : ℤ) * (f : ℤ) = t0 + (k : ℤ) * (f : ℤ) := by rw [ha]
      rw [Prod.ext_iff]
      constructor
      · rw [hka]
        exact (hget k hk2).symm
      · rw [hka]
        unfold lookupVal
        rw [find_arith f hf (a :: rest) t0 k hk2 hget]

/-- C9: conditioning is the identity on clean input — for a series that is
already sorted on the regular grid `t0, t0 + f, t0 + 2f, ...` with no
duplicate timestamps and no missing values, the conditioner returns it
unchanged: parsing drops nothing, sorting keeps the order, interpolation
touches no value, and resampling reproduces the same timestamps and
values. -/
theorem c9_conditioning_idempotent (rows : List (ℤ × ℚ)) (f : ℕ) (t0 : ℤ)
    (hf : 1 ≤ f) (hne : rows ≠ [])
    (hgrid : rows.map Prod.fst =
      (List.range rows.length).map fun k : ℕ => t0 + (k : ℤ) * (f : ℤ)) :
    conditionCode (rows.map fun r => (some r.1, some r.2)) f =
      some (rows.map fun r => (r.1, some r.2)) := by
  have hparse := parse_total rows
  have hget : ∀ i (hi : i < (rows.map fun r => (r.1, some r.2)).length),
      (((rows.map fun r => (r.1, some r.2))[i]).1 : ℤ) = t0 + (i : ℤ) * (f : ℤ) := by
    intro i hi
    have hi2 : i < rows.length := by simpa using hi
    have h1 := List.getElem_of_eq hgrid (by simpa using hi2)
    simp only [List.getElem_map, List.getElem_range] at h1
    simp only [List.getElem_map]
    exact h1
  have hsorted : (rows.map fun r => (r.1, some r.2)).Sorted
      (fun a b : ℤ × Option ℚ => a.1 ≤ b.1) := by
    rw [List.Sorted, List.pairwise_iff_getElem]
    intro i j hi hj hij
    rw [hget i hi, hget j hj]
    have hfz : (0 : ℤ) ≤ (f : ℤ) := by positivity
    have hmul : (i : ℤ) * (f : ℤ) ≤ (j : ℤ) * (f : ℤ) := by
      apply mul_le_mul_of_nonneg_right _ hfz
      exact_mod_cast Nat.le_of_lt hij
    omega
  have hsort : sortRows (rows.map fun r => (r.1, some r.2)) =
      rows.map fun r => (r.1, some r.2) := by
    unfold sortRows
    exact List.Sorted.insertionSort_eq hsorted
  have hinterp : interpolateTime (rows.map fun r => (r.1, some r.2)) =
      rows.map fun r => (r.1, some r.2) := by
    unfold interpolateTime
    refine interp_all_some _ 0 _ ?_
    intro r hr
    rw [List.mem_map] at hr
    obtain ⟨x, -, hx⟩ := hr
    rw [← hx]
    rfl
  have hnotall : ¬ ((rows.map fun r => (r.1, some r.2)).all (fun r => r.2.isNone) = true) := by
    cases rows with
    | nil => exact absurd rfl hne
    | cons a tl => simp
  have hmapne : rows.map (fun r => ((r.1 : ℤ), some (r.2 : ℚ))) ≠ [] := by
    cases rows with
    | nil => exact absurd rfl hne
    | cons a tl => simp
  simp only [conditionCode, hparse, hsort, hinterp]
  rw [if_neg hnotall]
  rw [asfreq_self f hf t0 _ hmapne hget]

/-- Witness for C9: the already-regular, complete two-point series
`[(0, 5), (1, 7)]` at frequency 1 passes through conditioning unchanged. -/
theorem c9_conditioning_idempotent_witness :
    conditionCode (([((0 : ℤ), (5 : ℚ)), (1, 7)]).map fun r => (some r.1, some r.2)) 1 =
      some (([((0 : ℤ), (5 : ℚ)), (1, 7)]).map fun r => (r.1, some r.2)) :=
  c9_conditioning_idempotent [((0 : ℤ), (5 : ℚ)), (1, 7)] 1 0
    (by decide) (by decide) (by decide)

end TSApp
